import Mathlib

/-
Verification of the tracelog repository's core semantics.

The definitions below are a shallow embedding of the Python sources:
  - src/tracelog/buffer.py     (LogEntry, RingBuffer)
  - src/tracelog/context.py    (ContextManager depth operations)
  - src/tracelog/handler.py    (get_buffer registry, TraceLogHandler.emit,
                                _to_dsl, _dump)
  - src/tracelog/instrument.py (the @trace wrapper)
  - src/tracelog/core.py       (legacy TraceLog class and its dump path)

Python machine state (contextvars, the monotonic clock, the dump stream) is
made explicit: buffers carry their entry list, the clock is a natural-number
counter threaded through pushes, and everything printed to the dump stream is
collected into a list of strings.
-/

/-! ## Severity constants (Python logging module) -/

def logging.DEBUG : Nat := 10
def logging.INFO : Nat := 20
def logging.WARNING : Nat := 30
def logging.ERROR : Nat := 40
def logging.CRITICAL : Nat := 50

/-! ## buffer.py : LogEntry and RingBuffer -/

/-- Embedding of `LogEntry` from src/tracelog/buffer.py: a timestamp from the
monotonic clock, the formatted Trace-DSL line, and the numeric logging level
(default 0 = NOTSET). -/
structure LogEntry where
  timestamp : Nat
  dsl_line : String
  level : Nat
deriving Repr, DecidableEq

/-- Embedding of `RingBuffer` from src/tracelog/buffer.py. The Python class
wraps `collections.deque(maxlen=capacity)`; here the deque is the plain list
`entries` (oldest first) together with the fixed `capacity`. -/
structure RingBuffer where
  capacity : Nat
  entries : List LogEntry
deriving Repr, DecidableEq

/-- A freshly constructed `RingBuffer(capacity)`: the deque starts empty. -/
def RingBuffer.new (capacity : Nat) : RingBuffer :=
  ⟨capacity, []⟩

/-- Embedding of `RingBuffer.push`: `deque.append` on a deque with
`maxlen = capacity` appends the new entry and drops from the left whatever
exceeds the capacity (for a buffer respecting the capacity invariant that is
at most the single oldest entry). The monotonic timestamp is passed in
explicitly as `ts`. -/
def RingBuffer.push (b : RingBuffer) (ts : Nat) (dsl_line : String)
    (level : Nat) : RingBuffer :=
  let es := b.entries ++ [⟨ts, dsl_line, level⟩]
  ⟨b.capacity, es.drop (es.length - b.capacity)⟩

/-- Embedding of `RingBuffer.flash`: `entries = list(self._buffer)` followed by
`self._buffer.clear()`, returning the snapshot. The pair is the returned list
together with the post-state of the buffer. -/
def RingBuffer.flash (b : RingBuffer) : List LogEntry × RingBuffer :=
  (b.entries, ⟨b.capacity, []⟩)

/-- Embedding of `RingBuffer.snapshot`: `list(self._buffer)` without mutation. -/
def RingBuffer.snapshot (b : RingBuffer) : List LogEntry :=
  b.entries

/-- Embedding of `RingBuffer.clear`: `self._buffer.clear()`. -/
def RingBuffer.clear (b : RingBuffer) : RingBuffer :=
  ⟨b.capacity, []⟩

/-- Embedding of `RingBuffer.__len__`: `len(self._buffer)`. -/
def RingBuffer.length (b : RingBuffer) : Nat :=
  b.entries.length

/-- An input to a single push: timestamp, DSL line, level. -/
structure PushInput where
  ts : Nat
  line : String
  level : Nat
deriving Repr, DecidableEq

/-- The entry a push input becomes. -/
def PushInput.toEntry (x : PushInput) : LogEntry :=
  ⟨x.ts, x.line, x.level⟩

/-- A whole sequence of `push` calls, oldest input first. -/
def RingBuffer.pushMany (b : RingBuffer) (xs : List PushInput) : RingBuffer :=
  xs.foldl (fun acc x => acc.push x.ts x.line x.level) b

theorem RingBuffer.capacity_push (b : RingBuffer) (ts : Nat) (l : String)
    (v : Nat) : (b.push ts l v).capacity = b.capacity := rfl

theorem RingBuffer.entries_push (b : RingBuffer) (ts : Nat) (l : String)
    (v : Nat) :
    (b.push ts l v).entries =
      (b.entries ++ [(⟨ts, l, v⟩ : LogEntry)]).drop
        ((b.entries.length + 1) - b.capacity) := by
  simp [RingBuffer.push]

theorem RingBuffer.length_push (b : RingBuffer) (ts : Nat) (l : String)
    (v : Nat) :
    (b.push ts l v).entries.length = min (b.entries.length + 1) b.capacity := by
  rw [RingBuffer.entries_push]
  simp
  omega

/-- After any sequence of pushes, the entries are the suffix of all pushed
entries that fits in the capacity, appended to whatever of the initial
contents survives. Stated for a start state respecting the capacity
invariant. -/
theorem RingBuffer.pushMany_entries (xs : List PushInput) (b : RingBuffer)
    (hb : b.entries.length ≤ b.capacity) :
    (b.pushMany xs).entries =
      (b.entries ++ xs.map PushInput.toEntry).drop
        ((b.entries.length + xs.length) - b.capacity) := by
  induction xs generalizing b with
  | nil => simp [RingBuffer.pushMany, Nat.sub_eq_zero_of_le hb]
  | cons x rest ih =>
    have hstep : (b.push x.ts x.line x.level).entries.length ≤ b.capacity := by
      rw [RingBuffer.length_push]; omega
    have hcap : (b.push x.ts x.line x.level).capacity = b.capacity := rfl
    have h1 : (b.pushMany (x :: rest)) = (b.push x.ts x.line x.level).pushMany rest := by
      simp [RingBuffer.pushMany]
    rw [h1, ih _ (by rw [hcap]; exact hstep), hcap]
    rw [RingBuffer.entries_push]
    rw [← List.drop_append_of_le_length (by simp)]
    rw [List.drop_drop]
    congr 1
    · simp
      omega
    · simp [PushInput.toEntry]

theorem RingBuffer.pushMany_capacity (xs : List PushInput) (b : RingBuffer) :
    (b.pushMany xs).capacity = b.capacity := by
  induction xs generalizing b with
  | nil => rfl
  | cons x rest ih =>
    simp only [RingBuffer.pushMany, List.foldl_cons] at *
    exact ih _

/-- C1. For every RingBuffer, `flash()` returns every currently held entry,
oldest first (the snapshot), leaves the buffer empty, and satisfies
`length(flash_result) + length(buffer_after_flash) = length(buffer_before_flash)`
with `length(buffer_after_flash) = 0`; the snapshot and clear happen in the one
operation `flash`, and on an empty buffer `flash` returns the empty list and
the unchanged empty buffer (no error). -/
theorem RingBuffer.flash_atomic_snapshot_and_clear (b : RingBuffer) :
    b.flash.1 = b.snapshot
    ∧ b.flash.2.length = 0
    ∧ b.flash.1.length + b.flash.2.length = b.length
    ∧ b.flash.2 = ⟨b.capacity, []⟩
    ∧ (∀ c : Nat, (RingBuffer.new c).flash = ([], RingBuffer.new c)) := by
  refine ⟨rfl, rfl, ?_, rfl, fun c => rfl⟩
  simp [RingBuffer.flash, RingBuffer.length]

/-- C2. Pushing `n` entries into a fresh buffer of capacity `c` leaves exactly
the last `min n c` of them, in push order (window = drop of the first
`n - c`); the length after the pushes is `min n c`; a push onto a buffer
within capacity stays within capacity; and a push onto a full buffer of
positive capacity evicts exactly the single oldest entry. -/
theorem RingBuffer.push_fifo_window (c : Nat) (xs : List PushInput) :
    ((RingBuffer.new c).pushMany xs).entries =
      (xs.map PushInput.toEntry).drop (xs.length - c)
    ∧ ((RingBuffer.new c).pushMany xs).length = min xs.length c
    ∧ (∀ b : RingBuffer, ∀ ts l v, b.length ≤ b.capacity →
        (b.push ts l v).length ≤ b.capacity)
    ∧ (∀ b : RingBuffer, ∀ ts l v, 0 < b.capacity → b.length = b.capacity →
        (b.push ts l v).entries = b.entries.tail ++ [⟨ts, l, v⟩]) := by
  have hmain := RingBuffer.pushMany_entries xs (RingBuffer.new c)
    (by simp [RingBuffer.new])
  refine ⟨?_, ?_, ?_, ?_⟩
  · simpa [RingBuffer.new] using hmain
  · have : ((RingBuffer.new c).pushMany xs).entries.length =
        ((xs.map PushInput.toEntry).drop (xs.length - c)).length := by
      rw [show ((RingBuffer.new c).pushMany xs).entries =
        (xs.map PushInput.toEntry).drop (xs.length - c) by
          simpa [RingBuffer.new] using hmain]
    rw [RingBuffer.length, this]
    simp
    omega
  · intro b ts l v hb
    rw [RingBuffer.length] at hb
    rw [RingBuffer.length, RingBuffer.length_push]
    omega
  · intro b ts l v hpos hfull
    rw [RingBuffer.length] at hfull
    rw [RingBuffer.entries_push, hfull]
    rw [show b.capacity + 1 - b.capacity = 1 by omega]
    rcases b with ⟨cap, es⟩
    rcases es with _ | ⟨e, es⟩
    · simp at hpos hfull; omega
    · simp

/-- Witness for C2 at a concrete run: capacity 2, three pushes; the buffer
keeps the last two entries, and a push onto the full two-entry buffer evicts
exactly the oldest. -/
theorem RingBuffer.push_fifo_window_witness :
    ((RingBuffer.new 2).pushMany
        [⟨0, "a", 10⟩, ⟨1, "b", 20⟩, ⟨2, "c", 30⟩]).entries =
      [⟨1, "b", 20⟩, ⟨2, "c", 30⟩]
    ∧ ((RingBuffer.new 2).pushMany
        [⟨0, "a", 10⟩, ⟨1, "b", 20⟩, ⟨2, "c", 30⟩]).length = min 3 2
    ∧ ((⟨2, [⟨1, "b", 20⟩, ⟨2, "c", 30⟩]⟩ : RingBuffer).push 3 "d" 40).entries =
        [⟨2, "c", 30⟩, ⟨3, "d", 40⟩] := by
  have h := RingBuffer.push_fifo_window 2
    [⟨0, "a", 10⟩, ⟨1, "b", 20⟩, ⟨2, "c", 30⟩]
  refine ⟨?_, ?_, ?_⟩
  · rw [h.1]; rfl
  · rw [h.2.1]; rfl
  · have h4 := h.2.2.2 (⟨2, [⟨1, "b", 20⟩, ⟨2, "c", 30⟩]⟩ : RingBuffer)
      3 "d" 40 (by decide) (by rfl)
    simpa using h4

/-! ## context.py : ContextManager depth operations

The depth lives in a `contextvars.ContextVar[int]` with default 0; within one
concurrency context it is a single mutable integer cell, modelled here as an
explicit `Int` threaded through the operations. Python integers are unbounded
and signed, so `Int` (not `Nat`) is the faithful carrier: the non-negativity
of the depth is a property to prove, not a typing artifact. -/

/-- Embedding of `ContextManager.get_depth`. -/
def ContextManager.get_depth (d : Int) : Int := d

/-- Embedding of `ContextManager.increase_depth`:
`self._depth.set(self._depth.get() + 1)`. -/
def ContextManager.increase_depth (d : Int) : Int := d + 1

/-- Embedding of `ContextManager.decrease_depth`: decrement clamped at zero,
`if current > 0: self._depth.set(current - 1)`. -/
def ContextManager.decrease_depth (d : Int) : Int :=
  if 0 < d then d - 1 else d

/-- One depth operation of the ContextManager interface. -/
inductive DepthOp where
  | inc
  | dec
deriving Repr, DecidableEq

/-- Apply one depth operation to the context-local depth cell. -/
def DepthOp.apply : DepthOp → Int → Int
  | .inc, d => ContextManager.increase_depth d
  | .dec, d => ContextManager.decrease_depth d

/-- Run a whole sequence of increase/decrease calls, first call first. -/
def runDepthOps (ops : List DepthOp) (d : Int) : Int :=
  ops.foldl (fun a o => o.apply a) d

theorem runDepthOps_nil (d : Int) : runDepthOps [] d = d := rfl

theorem runDepthOps_cons (o : DepthOp) (ops : List DepthOp) (d : Int) :
    runDepthOps (o :: ops) d = runDepthOps ops (o.apply d) := rfl

theorem depthOp_apply_nonneg (o : DepthOp) (d : Int) (hd : 0 ≤ d) :
    0 ≤ o.apply d := by
  cases o
  · simp only [DepthOp.apply, ContextManager.increase_depth]
    omega
  · simp only [DepthOp.apply, ContextManager.decrease_depth]
    split <;> omega

theorem runDepthOps_nonneg (ops : List DepthOp) (d : Int) (hd : 0 ≤ d) :
    0 ≤ runDepthOps ops d := by
  induction ops generalizing d with
  | nil => simpa [runDepthOps_nil] using hd
  | cons o rest ih =>
    rw [runDepthOps_cons]
    exact ih _ (depthOp_apply_nonneg o d hd)

theorem runDepthOps_inc (k : Nat) (d : Int) :
    runDepthOps (List.replicate k .inc) d = d + k := by
  induction k generalizing d with
  | zero => simp [runDepthOps_nil]
  | succ n ih =>
    rw [List.replicate_succ, runDepthOps_cons]
    rw [ih]
    simp [DepthOp.apply, ContextManager.increase_depth]
    omega

theorem runDepthOps_dec_exact (k : Nat) (d : Int) (hd : 0 ≤ d) :
    runDepthOps (List.replicate k .dec) (d + k) = d := by
  induction k with
  | zero => simp [runDepthOps_nil]
  | succ n ih =>
    rw [List.replicate_succ, runDepthOps_cons]
    have happ : DepthOp.dec.apply (d + (n + 1 : Nat)) = d + n := by
      simp only [DepthOp.apply, ContextManager.decrease_depth]
      split <;> omega
    rw [happ, ih]

/-- C8. For every sequence of increase/decrease calls starting from a
non-negative depth, the depth stays non-negative at the end of the run (and
hence, applied to every prefix of a run, at every intermediate point);
`decrease_depth` at depth 0 is a no-op and not an error; and for every
non-negative starting depth, `k` increases followed by `k` decreases restore
the starting depth exactly. -/
theorem ContextManager.depth_nonneg_clamped_balanced :
    (∀ (ops : List DepthOp) (d : Int), 0 ≤ d → 0 ≤ runDepthOps ops d)
    ∧ ContextManager.decrease_depth 0 = 0
    ∧ (∀ (k : Nat) (d : Int), 0 ≤ d →
        runDepthOps (List.replicate k .dec)
          (runDepthOps (List.replicate k .inc) d) = d) := by
  refine ⟨runDepthOps_nonneg, by simp [ContextManager.decrease_depth], ?_⟩
  intro k d hd
  rw [runDepthOps_inc]
  exact runDepthOps_dec_exact k d hd

/-- Witness for C8 at concrete inputs: a mixed run from depth 0 stays
non-negative, and 3 increases followed by 3 decreases from depth 1 restore
depth 1. -/
theorem ContextManager.depth_nonneg_clamped_balanced_witness :
    0 ≤ runDepthOps [DepthOp.dec, DepthOp.inc, DepthOp.dec, DepthOp.dec] 0
    ∧ runDepthOps (List.replicate 3 .dec)
        (runDepthOps (List.replicate 3 .inc) 1) = 1 :=
  ⟨ContextManager.depth_nonneg_clamped_balanced.1
      [DepthOp.dec, DepthOp.inc, DepthOp.dec, DepthOp.dec] 0 (by decide),
   ContextManager.depth_nonneg_clamped_balanced.2.2 3 1 (by decide)⟩

/-! ## handler.py : TraceLogHandler -/

/-- Helper: string concatenation is associative (via the data lists). -/
theorem string_append_assoc (a b c : String) : a ++ b ++ c = a ++ (b ++ c) :=
  String.ext (by simp [String.data_append, List.append_assoc])

/-- Python's `"  " * depth`: the two-space indent repeated `depth` times; for a
non-positive depth this is the empty string, exactly as in Python. -/
def indentOf (depth : Int) : String :=
  String.join (List.replicate depth.toNat "  ")

/-- The part of a `logging.LogRecord` that `TraceLogHandler` reads:
`levelno`, `levelname`, the rendered message `record.getMessage()`, and the
exception class name when `record.exc_info` holds an exception value
(`record.exc_info and record.exc_info[1]` in the source). -/
structure Record where
  levelno : Nat
  levelname : String
  msg : String
  excName : Option String
deriving Repr, DecidableEq

/-- Embedding of `TraceLogHandler._to_dsl` from src/tracelog/handler.py,
with the current context depth passed explicitly (the source reads it from
`ContextManager.get_depth()`). -/
def TraceLogHandler.to_dsl (depth : Int) (record : Record) : String :=
  let indent := indentOf depth
  let pfx :=
    if logging.ERROR ≤ record.levelno then "!!"
    else if logging.WARNING ≤ record.levelno then ".."
    else ".. [" ++ record.levelname ++ "]"
  match record.excName with
  | some excTy => indent ++ pfx ++ " " ++ excTy ++ ": " ++ record.msg
  | none => indent ++ pfx ++ " " ++ record.msg

/-- The visible machine state of a handler-driven run: the per-context depth
cell, the per-context ring buffer, the lines printed to the dump stream so
far, and the monotonic clock feeding entry timestamps. -/
structure HState where
  depth : Int
  buf : RingBuffer
  out : List String
  clock : Nat
deriving Repr, DecidableEq

/-- A `buffer.push(line, level)` call made from handler or decorator code:
stamps the entry with the current clock and advances the clock. -/
def HState.pushLine (s : HState) (line : String) (level : Nat) : HState :=
  { s with buf := s.buf.push s.clock line level, clock := s.clock + 1 }

/-- Embedding of `TraceLogHandler._dump`: `entries = buf.flash()` (atomic
snapshot plus clear), then the header line, every DSL line, and the footer
line are printed to the dump stream. -/
def TraceLogHandler.dump (s : HState) : HState :=
  let flashed := s.buf.flash
  { s with
    buf := flashed.2
    out := s.out
      ++ ["\n=== [TraceLog] DUMP START ==="]
      ++ flashed.1.map (fun e => e.dsl_line)
      ++ ["=== [TraceLog] DUMP END ===\n"] }

/-- Embedding of `TraceLogHandler.emit` (the non-raising body of the
`try` block): convert the record to a DSL line, push it with the record's
level, and when the level is ERROR or above run `_dump` on the buffer. -/
def TraceLogHandler.emit (s : HState) (record : Record) : HState :=
  let dsl_line := TraceLogHandler.to_dsl s.depth record
  let s1 := s.pushLine dsl_line record.levelno
  if logging.ERROR ≤ record.levelno then TraceLogHandler.dump s1 else s1

/-- C7. For every depth and record, `_to_dsl` produces exactly one line of the
grammar `indent ( "!! " | ".. " | ".. [" LEVEL "] " ) message`: two spaces of
indent per depth level, then `!!` for ERROR-or-above, `..` for the warning
tier, `.. [LEVEL]` below warning, then the message, with the exception type
name inserted as `"{ErrorTypeName}: "` before the message exactly when the
record carries an exception value. -/
theorem TraceLogHandler.to_dsl_line_grammar (depth : Int) (record : Record) :
    TraceLogHandler.to_dsl depth record =
      indentOf depth
        ++ (if logging.ERROR ≤ record.levelno then "!!"
            else if logging.WARNING ≤ record.levelno then ".."
            else ".. [" ++ record.levelname ++ "]")
        ++ " "
        ++ (match record.excName with
            | some excTy => excTy ++ ": "
            | none => "")
        ++ record.msg := by
  rcases record with ⟨lv, ln, m, exc⟩
  cases exc with
  | none =>
    apply String.ext
    simp [TraceLogHandler.to_dsl, String.data_append, List.append_assoc]
  | some excTy =>
    apply String.ext
    simp [TraceLogHandler.to_dsl, String.data_append, List.append_assoc]

/-- C3 main theorem (amended): with room for the new entry (capacity at least
3), handling an error-level record C on a context buffer holding exactly an
info-level line A and a debug-level line B first pushes the line for C and
then triggers exactly one dump: the dump stream grows by exactly one block
whose body is A's line, B's line, then C's line, in that order, and the
context buffer has length 0 afterwards. -/
theorem TraceLogHandler.emit_error_dumps_in_order
    (s : HState) (tsA tsB : Nat) (lineA lineB : String) (record : Record)
    (hbuf : s.buf.entries =
      [⟨tsA, lineA, logging.INFO⟩, ⟨tsB, lineB, logging.DEBUG⟩])
    (hcap : 3 ≤ s.buf.capacity)
    (herr : logging.ERROR ≤ record.levelno) :
    (TraceLogHandler.emit s record).out =
      s.out ++ ["\n=== [TraceLog] DUMP START ==="]
        ++ [lineA, lineB, TraceLogHandler.to_dsl s.depth record]
        ++ ["=== [TraceLog] DUMP END ===\n"]
    ∧ (TraceLogHandler.emit s record).buf.length = 0 := by
  have hpush : (s.buf.push s.clock (TraceLogHandler.to_dsl s.depth record)
      record.levelno).entries =
      [⟨tsA, lineA, logging.INFO⟩, ⟨tsB, lineB, logging.DEBUG⟩,
       ⟨s.clock, TraceLogHandler.to_dsl s.depth record, record.levelno⟩] := by
    rw [RingBuffer.entries_push, hbuf]
    have hz : ([(⟨tsA, lineA, logging.INFO⟩ : LogEntry),
        ⟨tsB, lineB, logging.DEBUG⟩] : List LogEntry).length + 1
        - s.buf.capacity = 0 := by simp; omega
    rw [hz]
    simp
  constructor
  · simp only [TraceLogHandler.emit, HState.pushLine, TraceLogHandler.dump,
      RingBuffer.flash, if_pos herr]
    rw [hpush]
    simp
  · simp only [TraceLogHandler.emit, HState.pushLine, TraceLogHandler.dump,
      RingBuffer.flash, if_pos herr, RingBuffer.length]
    rfl

/-- Concrete start state for the C3 witness: a capacity-3 context buffer
holding an info line A and a debug line B. -/
def emitWitnessState : HState :=
  ⟨0, ⟨3, [⟨0, ".. [INFO] A", logging.INFO⟩,
           ⟨1, ".. [DEBUG] B", logging.DEBUG⟩]⟩, [], 2⟩

/-- The concrete error-level record C used by the C3 witness and
counterexample. -/
def errorRecordC : Record :=
  ⟨logging.ERROR, "ERROR", "C", none⟩

/-- Witness for the amended C3 at a concrete run: capacity 3, buffer holding
A then B, an error record C; the single dump block lists A, B, C in order and
the buffer is empty afterwards. -/
theorem TraceLogHandler.emit_error_dumps_in_order_witness :
    (TraceLogHandler.emit emitWitnessState errorRecordC).out =
      emitWitnessState.out ++ ["\n=== [TraceLog] DUMP START ==="]
        ++ [".. [INFO] A", ".. [DEBUG] B",
            TraceLogHandler.to_dsl emitWitnessState.depth errorRecordC]
        ++ ["=== [TraceLog] DUMP END ===\n"]
    ∧ (TraceLogHandler.emit emitWitnessState errorRecordC).buf.length = 0 :=
  TraceLogHandler.emit_error_dumps_in_order emitWitnessState 0 1
    ".. [INFO] A" ".. [DEBUG] B" errorRecordC rfl (by decide) (by decide)

/-- Concrete start state refuting C3 as stated: the same two held lines but in
a buffer of capacity 2, which is a legitimate "context buffer holding an
info-level line A and a debug-level line B". -/
def emitCounterState : HState :=
  ⟨0, ⟨2, [⟨0, ".. [INFO] A", logging.INFO⟩,
           ⟨1, ".. [DEBUG] B", logging.DEBUG⟩]⟩, [], 2⟩

/-- Counterexample to C3 as stated: for a capacity-2 context buffer holding
info line A and debug line B, handling the error-level event C evicts A's
entry when C is pushed, so the dump output does not contain the line for A at
all (let alone A, B, C in order). -/
theorem TraceLogHandler.emit_error_dump_counterexample :
    emitCounterState.buf.entries.map (fun e => e.dsl_line)
      = [".. [INFO] A", ".. [DEBUG] B"]
    ∧ logging.ERROR ≤ errorRecordC.levelno
    ∧ ".. [INFO] A" ∉ (TraceLogHandler.emit emitCounterState errorRecordC).out := by
  refine ⟨rfl, by decide, ?_⟩
  decide

/-! ## instrument.py : the @trace decorator -/

/-- A Python exception value as the wrapper observes it: its class name
(`type(exc).__name__`), its message (`str(exc)`), and its chained cause
(`exc.__cause__`, abstracted to an optional description). A bare `raise`
re-raises the very same value, so equality of `Exc` values captures
"identical type, message, and chained cause". -/
structure Exc where
  tyName : String
  msg : String
  cause : Option String
deriving Repr, DecidableEq

/-- The outcome of executing the wrapped callable's body: a normal return
with a value, or a raised exception. -/
inductive Outcome (V : Type) where
  | ok (v : V)
  | err (e : Exc)
deriving Repr, DecidableEq

/-- The DSL entry line built at the top of `trace.wrapper`:
`f"{indent}>> {func.__qualname__}({arg_str})"`, where `arg_str` is the bound
argument rendering or the `"..."` fallback when `inspect.signature` fails. -/
def traceEntryLine (s : HState) (qualname : String)
    (argStr : Option String) : String :=
  indentOf s.depth ++ ">> " ++ qualname ++ "("
    ++ (match argStr with | some a => a | none => "...") ++ ")"

/-- Depth bookkeeping of the wrapper as an `HState` step. -/
def HState.incDepth (s : HState) : HState :=
  { s with depth := ContextManager.increase_depth s.depth }

/-- Depth bookkeeping of the wrapper as an `HState` step (clamped at 0). -/
def HState.decDepth (s : HState) : HState :=
  { s with depth := ContextManager.decrease_depth s.depth }

/-- Embedding of `trace.wrapper` from src/tracelog/instrument.py. The wrapped
callable's execution is the function `body`, which receives the state after
the entry push and depth increment and yields the state at the moment `func`
returns or raises together with the outcome; `rep` is Python's `repr` for the
return value. On normal return the wrapper decrements depth, pushes
`"{indent}<< {result!r}"` at the restored depth with DEBUG severity and
returns the value; on a raise it decrements depth, pushes
`"{indent}!! {type(exc).__name__}: {exc}"` at the restored depth with ERROR
severity, and re-raises the same exception value. -/
def trace.wrapper {V : Type} (qualname : String) (argStr : Option String)
    (rep : V → String) (body : HState → HState × Outcome V)
    (s : HState) : HState × Outcome V :=
  let s1 := s.pushLine (traceEntryLine s qualname argStr) logging.DEBUG
  let s2 := s1.incDepth
  match body s2 with
  | (s3, .ok v) =>
      let s4 := s3.decDepth
      let s5 := s4.pushLine (indentOf s4.depth ++ "<< " ++ rep v) logging.DEBUG
      (s5, .ok v)
  | (s3, .err e) =>
      let s4 := s3.decDepth
      let s5 := s4.pushLine
        (indentOf s4.depth ++ "!! " ++ e.tyName ++ ": " ++ e.msg) logging.ERROR
      (s5, .err e)

theorem HState.pushLine_depth (s : HState) (l : String) (v : Nat) :
    (s.pushLine l v).depth = s.depth := rfl

theorem HState.pushLine_out (s : HState) (l : String) (v : Nat) :
    (s.pushLine l v).out = s.out := rfl

/-- C5. The wrapper is depth-neutral: for every wrapped callable whose own
execution leaves the context depth unchanged (as every plain body and, by
this very theorem, every nest of traced calls does), and every call starting
at a valid (non-negative) depth, the depth after the call equals the depth
before it, on the normal-return path and on the exception path alike. -/
theorem trace.wrapper_depth_neutral {V : Type} (qualname : String)
    (argStr : Option String) (rep : V → String)
    (body : HState → HState × Outcome V) (s : HState)
    (hs : 0 ≤ s.depth)
    (hbody : ∀ t : HState, 0 ≤ t.depth → ((body t).1).depth = t.depth) :
    ((trace.wrapper qualname argStr rep body s).1).depth = s.depth := by
  have h2 : ((s.pushLine (traceEntryLine s qualname argStr)
      logging.DEBUG).incDepth).depth = s.depth + 1 := rfl
  have hnn : 0 ≤ ((s.pushLine (traceEntryLine s qualname argStr)
      logging.DEBUG).incDepth).depth := by rw [h2]; omega
  have h3 := hbody _ hnn
  rw [h2] at h3
  unfold trace.wrapper
  rcases hb : body ((s.pushLine (traceEntryLine s qualname argStr)
      logging.DEBUG).incDepth) with ⟨s3, o⟩
  have h3' : s3.depth = s.depth + 1 := by rw [hb] at h3; exact h3
  cases o with
  | ok v =>
    simp only [hb, HState.pushLine_depth, HState.decDepth,
      ContextManager.decrease_depth, h3']
    split <;> omega
  | err e =>
    simp only [hb, HState.pushLine_depth, HState.decDepth,
      ContextManager.decrease_depth, h3']
    split <;> omega

/-- Concrete state for the wrapper witnesses: depth 1, a capacity-5 buffer
with one prior entry, empty dump stream. -/
def wrapWitnessState : HState :=
  ⟨1, ⟨5, [⟨0, "p", 0⟩]⟩, [], 7⟩

/-- Witness for C5 at a concrete call: a body that returns 42 without touching
depth, run at depth 1, leaves the depth at 1; a body that raises likewise. -/
theorem trace.wrapper_depth_neutral_witness :
    ((trace.wrapper "f" (some "x=1") (fun n : Nat => toString n)
        (fun t => (t, Outcome.ok 42)) wrapWitnessState).1).depth
      = wrapWitnessState.depth
    ∧ ((trace.wrapper "g" none (fun n : Nat => toString n)
        (fun t => (t, Outcome.err ⟨"ValueError", "boom", none⟩))
        wrapWitnessState).1).depth = wrapWitnessState.depth :=
  ⟨trace.wrapper_depth_neutral "f" (some "x=1") (fun n : Nat => toString n)
      (fun t => (t, Outcome.ok 42)) wrapWitnessState (by decide)
      (fun t _ => rfl),
   trace.wrapper_depth_neutral "g" none (fun n : Nat => toString n)
      (fun t => (t, Outcome.err ⟨"ValueError", "boom", none⟩))
      wrapWitnessState (by decide) (fun t _ => rfl)⟩

/-- C6. When the wrapped callable's body raises `e`, the wrapper decrements
the depth, pushes exactly the line `"{indent}!! {ErrorTypeName}: {message}"`
at the resulting (restored) depth with ERROR severity, and re-raises the very
same exception value `e` — identical type name, message, and chained cause —
and when the body was depth-preserving the depth the line is pushed at is
exactly the caller's pre-call depth. -/
theorem trace.wrapper_error_line_and_reraise {V : Type} (qualname : String)
    (argStr : Option String) (rep : V → String)
    (body : HState → HState × Outcome V) (s s3 : HState) (e : Exc)
    (hb : body ((s.pushLine (traceEntryLine s qualname argStr)
        logging.DEBUG).incDepth) = (s3, Outcome.err e)) :
    trace.wrapper qualname argStr rep body s =
      (s3.decDepth.pushLine
        (indentOf s3.decDepth.depth ++ "!! " ++ e.tyName ++ ": " ++ e.msg)
        logging.ERROR,
       Outcome.err e)
    ∧ (0 ≤ s.depth → s3.depth = s.depth + 1 →
        s3.decDepth.depth = s.depth) := by
  constructor
  · simp only [trace.wrapper]
    rw [hb]
  · intro hs h3
    simp only [HState.decDepth, ContextManager.decrease_depth, h3]
    split <;> omega

/-- Witness for C6 at a concrete raising call: the body raises
`ValueError("boom")`; the wrapper's result is exactly the state with the
`!!` line pushed at the restored depth 1 and the identical exception as the
outcome. -/
theorem trace.wrapper_error_line_and_reraise_witness :
    trace.wrapper "g" none (fun n : Nat => toString n)
        (fun t => (t, Outcome.err ⟨"ValueError", "boom", none⟩))
        wrapWitnessState =
      (((wrapWitnessState.pushLine
            (traceEntryLine wrapWitnessState "g" none)
            logging.DEBUG).incDepth).decDepth.pushLine
          (indentOf ((wrapWitnessState.pushLine
              (traceEntryLine wrapWitnessState "g" none)
              logging.DEBUG).incDepth).decDepth.depth
            ++ "!! " ++ "ValueError" ++ ": " ++ "boom")
          logging.ERROR,
       Outcome.err ⟨"ValueError", "boom", none⟩)
    ∧ (0 ≤ wrapWitnessState.depth →
        ((wrapWitnessState.pushLine
            (traceEntryLine wrapWitnessState "g" none)
            logging.DEBUG).incDepth).depth = wrapWitnessState.depth + 1 →
        ((wrapWitnessState.pushLine
            (traceEntryLine wrapWitnessState "g" none)
            logging.DEBUG).incDepth).decDepth.depth = wrapWitnessState.depth) :=
  trace.wrapper_error_line_and_reraise "g" none (fun n : Nat => toString n)
    (fun t => (t, Outcome.err ⟨"ValueError", "boom", none⟩))
    wrapWitnessState _ ⟨"ValueError", "boom", none⟩ rfl

/-- Helper: two consecutive pushes with room for both simply append both
entries (no eviction). -/
theorem RingBuffer.push_push_entries_of_room (b : RingBuffer)
    (t1 t2 : Nat) (l1 l2 : String) (v1 v2 : Nat)
    (h : b.entries.length + 2 ≤ b.capacity) :
    ((b.push t1 l1 v1).push t2 l2 v2).entries =
      b.entries ++ [⟨t1, l1, v1⟩, ⟨t2, l2, v2⟩] := by
  have e1 : (b.push t1 l1 v1).entries = b.entries ++ [(⟨t1, l1, v1⟩ : LogEntry)] := by
    rw [RingBuffer.entries_push,
      show b.entries.length + 1 - b.capacity = 0 by omega, List.drop_zero]
  have e2 : ((b.push t1 l1 v1).push t2 l2 v2).entries =
      (b.push t1 l1 v1).entries ++ [(⟨t2, l2, v2⟩ : LogEntry)] := by
    rw [RingBuffer.entries_push,
      show (b.push t1 l1 v1).entries.length + 1 - (b.push t1 l1 v1).capacity = 0 by
        rw [RingBuffer.length_push, RingBuffer.capacity_push]; omega,
      List.drop_zero]
  rw [e2, e1, List.append_assoc]
  rfl

/-- C10 main theorem (amended): the wrapper only pushes — it never writes to
the dump stream and never flashes or clears the buffer. For a wrapped call
whose body raises without touching the state, the dump stream is unchanged
and, when the buffer has room for the wrapper's two pushes, the previously
buffered entries all remain, followed by the wrapper's entry line and error
line; for every body that leaves the dump stream alone the wrapper leaves it
alone too; and the event adapter's `emit` writes to the dump stream only for
error-or-above records. -/
theorem trace.wrapper_pushes_only_never_dumps {V : Type} (qualname : String)
    (argStr : Option String) (rep : V → String) (e : Exc) (s : HState)
    (hroom : s.buf.entries.length + 2 ≤ s.buf.capacity) :
    ((trace.wrapper qualname argStr rep
        (fun t => (t, Outcome.err e)) s).1).out = s.out
    ∧ ((trace.wrapper qualname argStr rep
        (fun t => (t, Outcome.err e)) s).1).buf.entries =
        s.buf.entries
          ++ [⟨s.clock, traceEntryLine s qualname argStr, logging.DEBUG⟩,
              ⟨s.clock + 1,
               indentOf (ContextManager.decrease_depth
                   (ContextManager.increase_depth s.depth))
                 ++ "!! " ++ e.tyName ++ ": " ++ e.msg,
               logging.ERROR⟩]
    ∧ (∀ body : HState → HState × Outcome V,
        (∀ t : HState, ((body t).1).out = t.out) →
        ((trace.wrapper qualname argStr rep body s).1).out = s.out)
    ∧ (∀ (s2 : HState) (r : Record), r.levelno < logging.ERROR →
        (TraceLogHandler.emit s2 r).out = s2.out) := by
  refine ⟨rfl, ?_, ?_, ?_⟩
  · exact RingBuffer.push_push_entries_of_room s.buf s.clock (s.clock + 1)
      (traceEntryLine s qualname argStr)
      (indentOf (ContextManager.decrease_depth
          (ContextManager.increase_depth s.depth))
        ++ "!! " ++ e.tyName ++ ": " ++ e.msg)
      logging.DEBUG logging.ERROR hroom
  · intro body hbody
    have hout := hbody ((s.pushLine (traceEntryLine s qualname argStr)
        logging.DEBUG).incDepth)
    unfold trace.wrapper
    rcases hb : body ((s.pushLine (traceEntryLine s qualname argStr)
        logging.DEBUG).incDepth) with ⟨s3, o⟩
    have h3 : s3.out = s.out := by rw [hb] at hout; exact hout
    cases o with
    | ok v => simp only [hb, HState.pushLine_out]; exact h3
    | err e2 => simp only [hb, HState.pushLine_out]; exact h3
  · intro s2 r hr
    simp only [TraceLogHandler.emit]
    rw [if_neg (by omega)]
    exact HState.pushLine_out s2 _ _

/-- Witness for the amended C10 at a concrete raising call: depth 1, buffer of
capacity 5 with one prior entry; the dump stream stays empty, and the buffer
holds the prior entry followed by the wrapper's two new lines. -/
theorem trace.wrapper_pushes_only_never_dumps_witness :
    ((trace.wrapper "f" (some "x=1") (fun n : Nat => toString n)
        (fun t => (t, Outcome.err ⟨"KeyError", "k", none⟩))
        wrapWitnessState).1).out = wrapWitnessState.out
    ∧ ((trace.wrapper "f" (some "x=1") (fun n : Nat => toString n)
        (fun t => (t, Outcome.err ⟨"KeyError", "k", none⟩))
        wrapWitnessState).1).buf.entries =
        wrapWitnessState.buf.entries
          ++ [⟨wrapWitnessState.clock,
               traceEntryLine wrapWitnessState "f" (some "x=1"),
               logging.DEBUG⟩,
              ⟨wrapWitnessState.clock + 1,
               indentOf (ContextManager.decrease_depth
                   (ContextManager.increase_depth wrapWitnessState.depth))
                 ++ "!! " ++ "KeyError" ++ ": " ++ "k",
               logging.ERROR⟩] := by
  have h := trace.wrapper_pushes_only_never_dumps (V := Nat) "f" (some "x=1")
    (fun n : Nat => toString n) ⟨"KeyError", "k", none⟩ wrapWitnessState
    (by decide)
  exact ⟨h.1, h.2.1⟩

/-- Concrete start state refuting C10 as stated: a full capacity-2 buffer. -/
def wrapCounterState : HState :=
  ⟨0, ⟨2, [⟨0, "p", logging.INFO⟩, ⟨1, "q", logging.DEBUG⟩]⟩, [], 2⟩

/-- Counterexample to C10 as stated: with a full capacity-2 buffer, a traced
call whose body raises pushes its entry line and error line, evicting both
previously buffered entries, so the previously buffered entry `p` does not
remain in the buffer (no dump is triggered, as the unchanged dump stream
shows). -/
theorem trace.wrapper_eviction_counterexample :
    (⟨0, "p", logging.INFO⟩ : LogEntry) ∈ wrapCounterState.buf.entries
    ∧ ((trace.wrapper "f" (some "") (fun n : Nat => toString n)
        (fun t => (t, Outcome.err ⟨"E", "m", none⟩))
        wrapCounterState).1).out = wrapCounterState.out
    ∧ (⟨0, "p", logging.INFO⟩ : LogEntry) ∉
        ((trace.wrapper "f" (some "") (fun n : Nat => toString n)
          (fun t => (t, Outcome.err ⟨"E", "m", none⟩))
          wrapCounterState).1).buf.entries := by
  refine ⟨by decide, rfl, by decide⟩

/-! ## handler.py : get_buffer and the ContextVar registry

The source stores the per-context buffer in
`_buffer_var : ContextVar[RingBuffer]`; a `LookupError` on `get()` means the
current context has no binding yet, in which case a fresh `RingBuffer` is
created and bound. The registry below makes the per-context bindings
explicit: contexts are identified by a natural number, buffer instances by
the natural number allocated at their creation (Python object identity), and
`capOf` records the capacity each instance was created with. -/

structure BufferRegistry where
  nextId : Nat
  binding : Nat → Option Nat
  capOf : Nat → Nat

/-- The registry before any context has touched `get_buffer`. -/
def BufferRegistry.empty : BufferRegistry :=
  ⟨0, fun _ => none, fun _ => 0⟩

/-- The registry after `RingBuffer(capacity)` is created for context `ctx`
and bound via `_buffer_var.set(buf)`: the fresh instance gets the next
identity, the context is bound to it, and its capacity is recorded. -/
def BufferRegistry.bindFresh (st : BufferRegistry) (ctx cap : Nat) :
    BufferRegistry :=
  ⟨st.nextId + 1,
   fun c => if c = ctx then some st.nextId else st.binding c,
   fun i => if i = st.nextId then cap else st.capOf i⟩

theorem BufferRegistry.bindFresh_nextId (st : BufferRegistry) (ctx cap : Nat) :
    (st.bindFresh ctx cap).nextId = st.nextId + 1 := rfl

theorem BufferRegistry.bindFresh_binding_self (st : BufferRegistry)
    (ctx cap : Nat) : (st.bindFresh ctx cap).binding ctx = some st.nextId := by
  simp [BufferRegistry.bindFresh]

theorem BufferRegistry.bindFresh_binding_other (st : BufferRegistry)
    (ctx cap c : Nat) (h : c ≠ ctx) :
    (st.bindFresh ctx cap).binding c = st.binding c := by
  simp [BufferRegistry.bindFresh, h]

theorem BufferRegistry.bindFresh_capOf_self (st : BufferRegistry)
    (ctx cap : Nat) : (st.bindFresh ctx cap).capOf st.nextId = cap := by
  simp [BufferRegistry.bindFresh]

/-- Embedding of `get_buffer(capacity=200)` from src/tracelog/handler.py, as
seen from context `ctx`: return the bound buffer if the ContextVar has one
(`_buffer_var.get()`), otherwise create a `RingBuffer(capacity)` — a fresh
instance — bind it and return it. -/
def get_buffer (st : BufferRegistry) (ctx : Nat) (capacity : Nat) :
    BufferRegistry × Nat :=
  match st.binding ctx with
  | some b => (st, b)
  | none => (st.bindFresh ctx capacity, st.nextId)

/-- Registry sanity: every bound instance was allocated, and no two contexts
are bound to the same instance. Holds for the empty registry and is
preserved by `get_buffer`. -/
def BufferRegistry.Inv (st : BufferRegistry) : Prop :=
  (∀ c b, st.binding c = some b → b < st.nextId)
  ∧ (∀ c c2 b, st.binding c = some b → st.binding c2 = some b → c = c2)

theorem BufferRegistry.empty_inv : BufferRegistry.Inv BufferRegistry.empty :=
  ⟨fun c b h => by simp [BufferRegistry.empty] at h,
   fun c c2 b h _ => by simp [BufferRegistry.empty] at h⟩

theorem get_buffer_of_bound (st : BufferRegistry) (ctx cap b : Nat)
    (h : st.binding ctx = some b) : get_buffer st ctx cap = (st, b) := by
  simp [get_buffer, h]

theorem get_buffer_of_unbound (st : BufferRegistry) (ctx cap : Nat)
    (h : st.binding ctx = none) :
    get_buffer st ctx cap = (st.bindFresh ctx cap, st.nextId) := by
  simp [get_buffer, h]

theorem bindFresh_inv (st : BufferRegistry) (ctx cap : Nat)
    (hinv : st.Inv) :
    (st.bindFresh ctx cap).Inv := by
  rcases hinv with ⟨hlt, hinj⟩
  constructor
  · intro c b2 h
    rw [BufferRegistry.bindFresh_nextId]
    by_cases hc : c = ctx
    · rw [hc, BufferRegistry.bindFresh_binding_self] at h
      simp at h
      omega
    · rw [BufferRegistry.bindFresh_binding_other st ctx cap c hc] at h
      have := hlt c b2 h
      omega
  · intro c c2 b2 h h2
    by_cases hc : c = ctx <;> by_cases hc2 : c2 = ctx
    · rw [hc, hc2]
    · rw [hc, BufferRegistry.bindFresh_binding_self] at h
      rw [BufferRegistry.bindFresh_binding_other st ctx cap c2 hc2] at h2
      have hb := hlt c2 b2 h2
      simp at h
      omega
    · rw [hc2, BufferRegistry.bindFresh_binding_self] at h2
      rw [BufferRegistry.bindFresh_binding_other st ctx cap c hc] at h
      have hb := hlt c b2 h
      simp at h2
      omega
    · rw [BufferRegistry.bindFresh_binding_other st ctx cap c hc] at h
      rw [BufferRegistry.bindFresh_binding_other st ctx cap c2 hc2] at h2
      exact hinj c c2 b2 h h2

/-- C9. In every registry satisfying the sanity invariant: after a
`get_buffer` call from context `ctx` the context is bound to the returned
instance; if the context had no buffer yet, the returned instance is the
freshly created one and carries the requested capacity; every subsequent call
from the same context — whatever capacity argument the caller passes, hence
the event adapter and the instrumentation wrapper alike — returns the
identical instance and leaves the registry unchanged; the invariant is
preserved; and a call from any other context never returns that instance. -/
theorem get_buffer_per_context_identity (st : BufferRegistry) (ctx cap : Nat)
    (hinv : st.Inv) :
    ((get_buffer st ctx cap).1).binding ctx = some (get_buffer st ctx cap).2
    ∧ (st.binding ctx = none →
        ((get_buffer st ctx cap).1).capOf (get_buffer st ctx cap).2 = cap
        ∧ (get_buffer st ctx cap).2 = st.nextId)
    ∧ (∀ cap2 : Nat, get_buffer (get_buffer st ctx cap).1 ctx cap2 =
        ((get_buffer st ctx cap).1, (get_buffer st ctx cap).2))
    ∧ ((get_buffer st ctx cap).1).Inv
    ∧ (∀ ctx2 cap2 : Nat, ctx2 ≠ ctx →
        (get_buffer (get_buffer st ctx cap).1 ctx2 cap2).2 ≠
          (get_buffer st ctx cap).2) := by
  rcases hbind : st.binding ctx with _ | b
  · -- first call from ctx: a fresh buffer is created and bound
    rw [get_buffer_of_unbound st ctx cap hbind]
    have hself := BufferRegistry.bindFresh_binding_self st ctx cap
    refine ⟨hself, fun _ => ⟨BufferRegistry.bindFresh_capOf_self st ctx cap, rfl⟩,
      fun cap2 => get_buffer_of_bound _ ctx cap2 st.nextId hself,
      bindFresh_inv st ctx cap hinv, ?_⟩
    intro ctx2 cap2 hne
    rcases hbind2 : (st.bindFresh ctx cap).binding ctx2 with _ | b2
    · rw [get_buffer_of_unbound _ ctx2 cap2 hbind2,
        BufferRegistry.bindFresh_nextId]
      simp
    · rw [get_buffer_of_bound _ ctx2 cap2 b2 hbind2]
      rw [BufferRegistry.bindFresh_binding_other st ctx cap ctx2 hne] at hbind2
      have := hinv.1 ctx2 b2 hbind2
      simp
      omega
  · -- ctx already has a buffer: the call returns it and changes nothing
    rw [get_buffer_of_bound st ctx cap b hbind]
    refine ⟨hbind, fun h => absurd h (Option.some_ne_none b),
      fun cap2 => get_buffer_of_bound st ctx cap2 b hbind, hinv, ?_⟩
    intro ctx2 cap2 hne
    rcases hbind2 : st.binding ctx2 with _ | b2
    · rw [get_buffer_of_unbound st ctx2 cap2 hbind2]
      have := hinv.1 ctx b hbind
      simp
      omega
    · rw [get_buffer_of_bound st ctx2 cap2 b2 hbind2]
      simp
      intro h
      rw [h] at hbind2
      exact hne (hinv.2 ctx2 ctx b hbind2 hbind)

/-- Witness for C9 at a concrete run from the empty registry: context 0
creates instance 0 with capacity 200; the next call from context 0 (with a
different capacity argument, as a different caller would pass) returns the
same instance unchanged; and a call from context 1 returns a different
instance. -/
theorem get_buffer_per_context_identity_witness :
    ((get_buffer BufferRegistry.empty 0 200).1).binding 0 =
        some (get_buffer BufferRegistry.empty 0 200).2
    ∧ ((get_buffer BufferRegistry.empty 0 200).1).capOf
        (get_buffer BufferRegistry.empty 0 200).2 = 200
    ∧ get_buffer (get_buffer BufferRegistry.empty 0 200).1 0 100 =
        ((get_buffer BufferRegistry.empty 0 200).1,
         (get_buffer BufferRegistry.empty 0 200).2)
    ∧ (get_buffer (get_buffer BufferRegistry.empty 0 200).1 1 200).2 ≠
        (get_buffer BufferRegistry.empty 0 200).2 := by
  have h := get_buffer_per_context_identity BufferRegistry.empty 0 200
    BufferRegistry.empty_inv
  exact ⟨h.1, (h.2.1 rfl).1, h.2.2.1 100, h.2.2.2.2 1 200 (by decide)⟩

/-! ## core.py : the legacy TraceLog class and its dump path

`TraceLog.error` pushes the formatted line into the thread-local buffer
(created by core.py's own `get_buffer` with capacity 100) and then calls
`self.dump()`, which iterates over the flashed entries printing
`f"{entry.message}"`. `LogEntry` declares `__slots__` of exactly
`timestamp`, `dsl_line` and `level`, so the attribute access is modelled as a
fallible lookup that raises `AttributeError` for any other name. -/

/-- A Python exception escaping the core.py dump path. -/
inductive PyErr where
  | attributeError (name : String)
deriving Repr, DecidableEq

/-- Attribute access on a `LogEntry`, rendered to the string an f-string
would produce: the three slots succeed, every other name raises
`AttributeError`, exactly as `__slots__` dictates. -/
def LogEntry.attrStr (e : LogEntry) (name : String) : Except PyErr String :=
  if name = "timestamp" then Except.ok (toString e.timestamp)
  else if name = "dsl_line" then Except.ok e.dsl_line
  else if name = "level" then Except.ok (toString e.level)
  else Except.error (PyErr.attributeError name)

theorem LogEntry.attrStr_message (e : LogEntry) :
    e.attrStr "message" = Except.error (PyErr.attributeError "message") := by
  simp only [LogEntry.attrStr]
  rw [if_neg (by decide), if_neg (by decide), if_neg (by decide)]

/-- Machine state for the core.py path: depth cell, the thread-local buffer,
the lines printed to stderr, and the clock. -/
structure CoreState where
  depth : Int
  buf : RingBuffer
  out : List String
  clock : Nat
deriving Repr, DecidableEq

/-- Embedding of `TraceLog._format_message`:
`f"{indent}.. [{level}] {msg}"`. -/
def TraceLog.format_message (depth : Int) (levelName msg : String) : String :=
  indentOf depth ++ ".. [" ++ levelName ++ "] " ++ msg

/-- The print loop of `TraceLog.dump`: `print(f"{entry.message}")` for each
flashed entry, stopping with the exception as soon as an attribute lookup
fails. -/
def corePrintEntries : List LogEntry → List String → Except PyErr (List String)
  | [], out => Except.ok out
  | e :: rest, out =>
    match e.attrStr "message" with
    | Except.ok line => corePrintEntries rest (out ++ [line])
    | Except.error er => Except.error er

/-- Embedding of `TraceLog.dump` from src/tracelog/core.py: print the header,
flash the buffer, print `entry.message` for every flashed entry, print the
footer. Any exception raised by the attribute access propagates out (there is
no `try` in core.py). -/
def TraceLog.dump (s : CoreState) : Except PyErr CoreState :=
  let out1 := s.out ++ ["\n\n=== [TraceLog] DUMP START ==="]
  let flashed := s.buf.flash
  match corePrintEntries flashed.1 out1 with
  | Except.ok out2 =>
      Except.ok
        { s with
          buf := flashed.2
          out := out2 ++ ["=== [TraceLog] DUMP END ===\n"] }
  | Except.error er => Except.error er

/-- Embedding of `TraceLog.error` from src/tracelog/core.py with no delegate
logger: format the line, push it (with core.py's default level 0), then
trigger the dump. -/
def TraceLog.error (s : CoreState) (msg : String) : Except PyErr CoreState :=
  let line := TraceLog.format_message s.depth "ERROR" msg
  let s1 : CoreState :=
    { s with buf := s.buf.push s.clock line 0, clock := s.clock + 1 }
  TraceLog.dump s1

/-- C4, evaluated on the code: `TraceLog.error` raises for every message and
every state of core.py's thread-local buffer (capacity 100). The push made by
`error` itself guarantees the flashed list is non-empty, and the dump loop's
very first attribute access `entry.message` fails because `LogEntry` defines
only `timestamp`, `dsl_line` and `level` — so an `AttributeError` propagates
to the application caller instead of being caught inside the adapter. -/
theorem TraceLog.error_always_raises_attribute_error
    (entries : List LogEntry) (depth : Int) (out : List String)
    (clock : Nat) (msg : String) :
    TraceLog.error ⟨depth, ⟨100, entries⟩, out, clock⟩ msg
      = Except.error (PyErr.attributeError "message") := by
  have hne : ∀ (b : RingBuffer) (ts : Nat) (l : String) (v : Nat),
      0 < b.capacity → (b.push ts l v).entries ≠ [] := by
    intro b ts l v hpos h
    have := congrArg List.length h
    rw [RingBuffer.length_push] at this
    simp at this
    omega
  simp only [TraceLog.error, TraceLog.dump, RingBuffer.flash]
  rcases hE : (RingBuffer.push ⟨100, entries⟩ clock
      (TraceLog.format_message depth "ERROR" msg) 0).entries with _ | ⟨e, rest⟩
  · exact absurd hE (hne _ _ _ _ (by show (0 : Nat) < 100; decide))
  · simp only [corePrintEntries, LogEntry.attrStr_message]
